import Mathlib

/-!
Verification of the `httpctx` HTTP client library.

The development shallowly embeds the library's Go source:

* `Json`, `encV`/`jsonEncode` and `pv`/`parseJson` model the
  `encoding/json` marshalling used by `toJson` and `marshal`;
* `newRequest`, `toJson`, `ok`, `toByteArray`, `marshal`, `ErrorMessage`
  are translated function by function from `http.go`, `util.go`,
  `types.go`;
* `client.handle` models the select-based race between the transport
  goroutine and the cancellation context, with the winning branch of the
  `select` supplied as an explicit `Race` oracle and all transport
  operations counted in `NetStats`;
* `client.Do` is the full pipeline, fuelled to account for the unbounded
  redirect recursion of the source.
-/

/-- JSON values, the model of what `encoding/json` serializes:
the payloads handled by `toJson` and the values produced by
`json.Unmarshal` into a generic target. -/
inductive Json where
  | null
  | bool (b : Bool)
  | num (n : Int)
  | str (s : String)
  | arr (elems : List Json)
  | obj (fields : List (String × Json))

/-- Decimal digit to its character, as printed by `encoding/json`. -/
def digitChar (d : Nat) : Char :=
  match d with
  | 0 => '0' | 1 => '1' | 2 => '2' | 3 => '3' | 4 => '4'
  | 5 => '5' | 6 => '6' | 7 => '7' | 8 => '8' | _ => '9'

/-- Little-endian decimal digits of a natural number; fuelled so that it
evaluates by kernel reduction. -/
def toDigitsLEGo : Nat → Nat → List Nat
  | 0, _ => []
  | f + 1, n => if n = 0 then [] else n % 10 :: toDigitsLEGo f (n / 10)

/-- Characters of the decimal print of a natural number. -/
def natChars (n : Nat) : List Char :=
  if n = 0 then ['0'] else ((toDigitsLEGo (n + 1) n).reverse).map digitChar

/-- Characters of the decimal print of an integer, as `encoding/json`
emits numbers. -/
def encNum (n : Int) : List Char :=
  if n < 0 then '-' :: natChars n.natAbs else natChars n.toNat

/-- String-body escaping performed by the JSON encoder: quote and
backslash are escaped with a backslash. -/
def escapeChars : List Char → List Char
  | [] => []
  | c :: cs => (if c = '"' ∨ c = '\\' then ['\\', c] else [c]) ++ escapeChars cs

mutual

/-- Model of `json.Marshal`: serialize a JSON value to its byte sequence. -/
def encV : Json → List Char
  | .null => "null".data
  | .bool true => "true".data
  | .bool false => "false".data
  | .num n => encNum n
  | .str s => '"' :: (escapeChars s.data ++ ['"'])
  | .arr [] => ['[', ']']
  | .arr (x :: xs) => '[' :: (encV x ++ encTail xs)
  | .obj [] => ['{', '}']
  | .obj ((k, v) :: fs) =>
      '{' :: '"' :: (escapeChars k.data ++ '"' :: ':' :: (encV v ++ encFTail fs))

/-- Serialization of the remaining elements of a non-empty array,
including the closing bracket. -/
def encTail : List Json → List Char
  | [] => [']']
  | x :: xs => ',' :: (encV x ++ encTail xs)

/-- Serialization of the remaining fields of a non-empty object,
including the closing brace. -/
def encFTail : List (String × Json) → List Char
  | [] => ['}']
  | (k, v) :: fs =>
      ',' :: '"' :: (escapeChars k.data ++ '"' :: ':' :: (encV v ++ encFTail fs))

end

/-- `json.Marshal` output as a string (Go `[]byte` is modelled as `String`). -/
def jsonEncode (j : Json) : String := String.mk (encV j)

/-- Parse the body of a JSON string literal after the opening quote,
undoing `escapeChars`; returns the contents and the input after the
closing quote. -/
def parseStringBody : List Char → Option (List Char × List Char)
  | [] => none
  | c :: rest =>
    if c = '"' then some ([], rest)
    else if c = '\\' then
      match rest with
      | [] => none
      | e :: rest2 =>
          match parseStringBody rest2 with
          | some (s, r) => some (e :: s, r)
          | none => none
    else
      match parseStringBody rest with
      | some (s, r) => some (c :: s, r)
      | none => none

/-- Numeric value of a digit character. -/
def charVal (c : Char) : Nat := c.toNat - 48

/-- Consume a maximal run of decimal digits. -/
def parseDigits : List Char → List Nat × List Char
  | [] => ([], [])
  | c :: rest =>
    if c.isDigit then
      let p := parseDigits rest
      (charVal c :: p.1, p.2)
    else ([], c :: rest)

/-- Big-endian digit list to its value. -/
def ofDigits (ds : List Nat) : Nat := ds.foldl (fun a d => 10 * a + d) 0

/-- Parse a JSON integer literal. -/
def parseNumber (input : List Char) : Option (Json × List Char) :=
  match input with
  | [] => none
  | c :: rest =>
    if c = '-' then
      match parseDigits rest with
      | ([], _) => none
      | (ds, r) => some (.num (-(ofDigits ds : Int)), r)
    else
      match parseDigits (c :: rest) with
      | ([], _) => none
      | (ds, r) => some (.num (ofDigits ds : Int), r)

/-- Does the input start a number literal? -/
def startsNumber : List Char → Bool
  | [] => false
  | c :: _ => c.isDigit || c == '-'

mutual

/-- Fuelled model of the `json.Unmarshal` grammar: parse one JSON value,
returning it and the remaining input. -/
def pv : Nat → List Char → Option (Json × List Char)
  | 0, _ => none
  | f + 1, input =>
    if startsNumber input then parseNumber input
    else
      match input with
      | 'n' :: 'u' :: 'l' :: 'l' :: rest => some (.null, rest)
      | 't' :: 'r' :: 'u' :: 'e' :: rest => some (.bool true, rest)
      | 'f' :: 'a' :: 'l' :: 's' :: 'e' :: rest => some (.bool false, rest)
      | '"' :: rest =>
          match parseStringBody rest with
          | some (s, r) => some (.str (String.mk s), r)
          | none => none
      | '[' :: rest =>
          if rest.headD ' ' = ']' then some (.arr [], rest.tail)
          else
            match pv f rest with
            | some (x, r1) =>
                match parseArrTail f r1 with
                | some (xs, r2) => some (.arr (x :: xs), r2)
                | none => none
            | none => none
      | '{' :: rest =>
          if rest.headD ' ' = '}' then some (.obj [], rest.tail)
          else
            match rest with
            | '"' :: rest2 =>
                match parseStringBody rest2 with
                | some (k, r1) =>
                    match r1 with
                    | ':' :: r2 =>
                        match pv f r2 with
                        | some (v, r3) =>
                            match parseObjTail f r3 with
                            | some (fs, r4) => some (.obj ((String.mk k, v) :: fs), r4)
                            | none => none
                        | none => none
                    | _ => none
                | none => none
            | _ => none
      | _ => none

/-- Remaining elements of an array being parsed: a comma and a value,
repeated, then the closing bracket. -/
def parseArrTail : Nat → List Char → Option (List Json × List Char)
  | 0, _ => none
  | f + 1, input =>
    match input with
    | ']' :: rest => some ([], rest)
    | ',' :: rest =>
        match pv f rest with
        | some (x, r1) =>
            match parseArrTail f r1 with
            | some (xs, r2) => some (x :: xs, r2)
            | none => none
        | none => none
    | _ => none

/-- Remaining fields of an object being parsed. -/
def parseObjTail : Nat → List Char → Option (List (String × Json) × List Char)
  | 0, _ => none
  | f + 1, input =>
    match input with
    | '}' :: rest => some ([], rest)
    | ',' :: '"' :: rest =>
        match parseStringBody rest with
        | some (k, r1) =>
            match r1 with
            | ':' :: r2 =>
                match pv f r2 with
                | some (v, r3) =>
                    match parseObjTail f r3 with
                    | some (fs, r4) => some ((String.mk k, v) :: fs, r4)
                    | none => none
                | none => none
            | _ => none
        | none => none
    | _ => none

end

/-- Model of `json.Unmarshal` applied to a whole document: the parse
succeeds exactly when one JSON value consumes the entire input. -/
def parseJson (s : String) : Option Json :=
  match pv (s.data.length + 1) s.data with
  | some (j, []) => some j
  | _ => none

/-- Does the input start with a digit? Used to state where a number
literal may safely be followed by the rest of a document. -/
def headDigit : List Char → Bool
  | [] => false
  | c :: _ => c.isDigit

/-- Big-endian digits of a natural number. -/
def natDigitsBE (n : Nat) : List Nat :=
  if n = 0 then [0] else (toDigitsLEGo (n + 1) n).reverse

/-- Reason carried by a fired `context.Context`: explicit cancel versus
deadline exceeded. -/
inductive CancelReason where
  | canceled
  | deadlineExceeded
deriving DecidableEq

/-- A payload handed to `Do` (Go `interface{}`): either a value
`json.Marshal` can serialize, or one it rejects with an error. -/
inductive GoValue where
  | json (j : Json)
  | unserializable (msg : String)

/-- `ErrorMessage` from `types.go`: captures the status code and payload
contents for non-2xx responses. -/
structure ErrorMessage where
  StatusCode : Int
  Data : String

/-- The errors the library can surface, by kind. -/
inductive GoError where
  | emptyPath
  | encodingError (msg : String)
  | transportError (msg : String)
  | ctxErr (reason : CancelReason)
  | errorMessage (e : ErrorMessage)
  | jsonDecodeErr

/-- `EmptyPathErr` from `http.go`. -/
def EmptyPathErr : GoError := .emptyPath

/-- `ErrorMessage.Unmarshal` from `types.go`: re-decode the captured body
as JSON into a generic target cell. -/
def ErrorMessage.Unmarshal (e : ErrorMessage) (v : Option Json) : Option GoError × Option Json :=
  match parseJson e.Data with
  | some j => (none, some j)
  | none => (some .jsonDecodeErr, v)

/-- `toJson` from `util.go`: `nil` payloads produce no body; otherwise the
payload is serialized by `json.Marshal`, whose failure propagates. -/
def toJson : Option GoValue → Except GoError (Option String)
  | none => .ok none
  | some (.json j) => .ok (some (jsonEncode j))
  | some (.unserializable msg) => .error (.encodingError msg)

/-- Split a character list at the first occurrence of `c`: the part
before it, and — when present — the part after it. -/
def splitOnFirst (c : Char) : List Char → List Char × Option (List Char)
  | [] => ([], none)
  | x :: xs =>
    if x = c then ([], some xs)
    else
      let p := splitOnFirst c xs
      (x :: p.1, p.2)

/-- The components of a URL that `newRequest` manipulates: everything
before the query, the raw query, and the fragment. Models Go's
`url.URL` as used by the library. -/
structure URL where
  base : String
  rawQuery : String
  fragment : String

/-- Model of `url.Parse`: the fragment follows the first `#`, the raw
query sits between the first `?` and the fragment. -/
def urlParse (s : String) : URL :=
  let pf := splitOnFirst '#' s.data
  let pq := splitOnFirst '?' pf.1
  { base := String.mk pq.1
    rawQuery := String.mk ((pq.2).getD [])
    fragment := String.mk ((pf.2).getD []) }

/-- Model of `url.URL.String`: reassemble the components, omitting an
empty query and an empty fragment. -/
def urlString (u : URL) : String :=
  u.base ++ (if u.rawQuery = "" then "" else "?" ++ u.rawQuery)
    ++ (if u.fragment = "" then "" else "#" ++ u.fragment)

/-- Characters `url.QueryEscape` leaves unescaped. -/
def isUnreserved (c : Char) : Bool :=
  c.isAlpha || c.isDigit || c == '-' || c == '_' || c == '.' || c == '~'

/-- Uppercase hexadecimal digit. -/
def hexDigit (d : Nat) : Char :=
  match d with
  | 0 => '0' | 1 => '1' | 2 => '2' | 3 => '3' | 4 => '4'
  | 5 => '5' | 6 => '6' | 7 => '7' | 8 => '8' | 9 => '9'
  | 10 => 'A' | 11 => 'B' | 12 => 'C' | 13 => 'D' | 14 => 'E' | _ => 'F'

/-- Escaping of a single character under query encoding: unreserved
characters pass through, space becomes `+`, the rest are percent-encoded. -/
def queryEscapeChar (c : Char) : List Char :=
  if isUnreserved c then [c]
  else if c = ' ' then ['+']
  else ['%', hexDigit (c.toNat / 16 % 16), hexDigit (c.toNat % 16)]

/-- Model of `url.QueryEscape`. -/
def queryEscape (s : String) : String := String.mk (s.data.flatMap queryEscapeChar)

/-- Byte-wise comparison of strings, as `sort.Strings` orders keys. -/
def charListLe : List Char → List Char → Bool
  | [], _ => true
  | _ :: _, [] => false
  | a :: as, b :: bs =>
    if a.toNat < b.toNat then true
    else if b.toNat < a.toNat then false
    else charListLe as bs

/-- Insert one keyed entry into a key-sorted list. -/
def insertByKey (p : String × List String) :
    List (String × List String) → List (String × List String)
  | [] => [p]
  | q :: qs => if charListLe p.1.data q.1.data then p :: q :: qs else q :: insertByKey p qs

/-- Sort entries by key, as `url.Values.Encode` iterates keys in sorted
order. -/
def sortByKey : List (String × List String) → List (String × List String)
  | [] => []
  | p :: ps => insertByKey p (sortByKey ps)

/-- The `url.Values` multimap: keys with their value lists. -/
def UrlValues : Type := List (String × List String)

/-- Join the `k=v` pairs with `&`. -/
def joinAmp : List String → String
  | [] => ""
  | [s] => s
  | s :: rest => s ++ "&" ++ joinAmp rest

/-- Model of `url.Values.Encode`: sorted keys, each value escaped,
joined with `&`. -/
def UrlValues.Encode (vs : UrlValues) : String :=
  joinAmp ((sortByKey vs).flatMap
    (fun p => p.2.map (fun v => queryEscape p.1 ++ "=" ++ queryEscape v)))

/-- A header set with `http.Header.Set` semantics: setting a key replaces
any previous value. -/
def headerSet (hs : List (String × String)) (k v : String) : List (String × String) :=
  hs.filter (fun p => p.1 ≠ k) ++ [(k, v)]

/-- `http.Header.Get`: the value stored for the key, or the empty string. -/
def headerGet (hs : List (String × String)) (k : String) : String :=
  match hs.find? (fun p => p.1 = k) with
  | some p => p.2
  | none => ""

/-- A prepared `http.Request`: method, target URL, headers, optional body. -/
structure HttpRequest where
  method : String
  url : String
  headers : List (String × String)
  body : Option String

/-- An `http.Response`: status code, headers, body (already a byte
sequence; `toByteArray` drains it in full). -/
structure HttpResponse where
  statusCode : Int
  headers : List (String × String)
  body : String

/-- `http.StatusFound`, the one redirect status code `Do` follows. -/
def StatusFound : Int := 302

/-- `newRequest` from `http.go`: reject an empty path before any other
work, serialize the optional payload, replace the URL's raw query when
params are present, then set the three default headers. -/
def newRequest (userAgent method path : String) (params : Option UrlValues)
    (payload : Option GoValue) : Except GoError HttpRequest :=
  if path = "" then .error EmptyPathErr
  else
    match toJson payload with
    | .error e => .error e
    | .ok body =>
      let reqPath : String :=
        match params with
        | none => path
        | some ps =>
          let uri := urlParse path
          urlString { uri with rawQuery := UrlValues.Encode ps }
      let hs0 := headerSet [] "User-Agent" userAgent
      let hs1 := headerSet hs0 "Accept" "application/json"
      let hs2 := headerSet hs1 "Content-Type" "application/json"
      .ok { method := method, url := reqPath, headers := hs2, body := body }

/-- `ok` from `http.go`: integer division of the status code by 100, Go
semantics (truncation toward zero), compared with 2. -/
def ok (statusCode : Int) : Bool := statusCode.tdiv 100 == 2

/-- `toByteArray` from `http.go`: `io.Copy` drains the whole body. -/
def toByteArray (body : String) : String := body

/-- The caller's decode target `v` — a Go `interface{}` holding `nil`, a
`*[]byte`, a `*string`, or a generic pointer for `json.Unmarshal`; each
cell carries its current contents so that writes are observable. -/
inductive Target where
  | nilRef
  | bytesRef (b : String)
  | strRef (s : String)
  | jsonRef (t : Option Json)

/-- `marshal` from the source: dispatch on the target's type; byte and
string targets receive the raw bytes, anything else goes through
`json.Unmarshal`. -/
def marshal (data : String) (v : Target) : Option GoError × Target :=
  match v with
  | .bytesRef _ => (none, .bytesRef data)
  | .strRef _ => (none, .strRef data)
  | .jsonRef t =>
      match parseJson data with
      | some j => (none, .jsonRef (some j))
      | none => (some .jsonDecodeErr, .jsonRef t)
  | .nilRef => (some .jsonDecodeErr, .nilRef)

/-- The authentication hook: may mutate or replace the request. -/
def AuthFunc : Type := HttpRequest → HttpRequest

/-- The `client` struct: optional auth hook and the user-agent string. -/
structure client where
  authFunc : Option AuthFunc
  UserAgent : String

/-- What `tr.RoundTrip` returns for one attempt: a `(resp, err)` pair. -/
structure TransportReply where
  resp : Option HttpResponse
  err : Option GoError

/-- Which branch of `handle`'s `select` fires first: the context's done
channel (with the context's reason), or the transport goroutine's send on
the completion channel. -/
inductive Race where
  | ctxDoneFirst (reason : CancelReason)
  | transportFirst

/-- Counters for the externally visible transport activity of a call:
transports created, `RoundTrip` invocations, `CancelRequest` invocations. -/
structure NetStats where
  transports : Nat
  roundTrips : Nat
  cancels : Nat

/-- The observable outcome of `client.handle`: the returned pair, whether
the background goroutine has terminated (delivered its result) by the
time `handle` returns, and the transport counters. -/
structure HandleResult where
  resp : Option HttpResponse
  err : Option GoError
  bgTerminated : Bool
  stats : NetStats

/-- The transport goroutine: performs `RoundTrip` and sends the result on
the capacity-one channel; returns the updated counters, the channel
contents, and that it has terminated. -/
def bgTask (reply : TransportReply) (st : NetStats) :
    NetStats × Option TransportReply × Bool :=
  ({ st with roundTrips := st.roundTrips + 1 }, some reply, true)

/-- `client.handle`: create a fresh transport, launch the goroutine, and
`select` between `ctx.Done()` and the completion channel. The `select`
winner is the `race` oracle. On cancellation: `CancelRequest`, then a
blocking receive of the discarded result, then return `ctx.Err()`. On
completion: return the transported pair as is. -/
def client.handle (race : Race) (reply : TransportReply) (st0 : NetStats) : HandleResult :=
  let st1 : NetStats := { st0 with transports := st0.transports + 1 }
  match race with
  | .ctxDoneFirst reason =>
    let st2 : NetStats := { st1 with cancels := st1.cancels + 1 }
    let bg := bgTask reply st2
    let _discarded := bg.2.1
    { resp := none, err := some (.ctxErr reason), bgTerminated := bg.2.2, stats := bg.1 }
  | .transportFirst =>
    let bg := bgTask reply st1
    match bg.2.1 with
    | some r => { resp := r.resp, err := r.err, bgTerminated := bg.2.2, stats := bg.1 }
    | none => { resp := none, err := none, bgTerminated := bg.2.2, stats := bg.1 }

/-- Outcome of a `Do` invocation: a returned error-or-nil, exhaustion of
the recursion fuel (the source has no redirect-depth limit), or the nil
dereference Go would hit on a `(nil, nil)` transport reply. -/
inductive DoOutcome where
  | done (err : Option GoError)
  | fuelOut
  | nilResponse

/-- Result of `client.Do`: outcome, the caller's target cell after the
call, and the accumulated transport counters. -/
structure DoResult where
  outcome : DoOutcome
  target : Target
  stats : NetStats

/-- `client.Do`: build the request, apply the auth hook, execute via
`handle` (attempt outcomes supplied by the `world` oracle, one per hop),
follow a 302 by re-entering as a GET on the `Location` header, otherwise
classify the status and decode into the target. Fuel bounds the redirect
recursion, which the source leaves unbounded. -/
def client.Do (h : client) : Nat → (Nat → Race × TransportReply) → Nat →
    String → String → Option UrlValues → Option GoValue → Target → NetStats → DoResult
  | 0, _, _, _, _, _, _, v, st => { outcome := .fuelOut, target := v, stats := st }
  | fuel + 1, world, hop, method, path, params, payload, v, st =>
    match newRequest h.UserAgent method path params payload with
    | .error e => { outcome := .done (some e), target := v, stats := st }
    | .ok req =>
      let _req2 : HttpRequest :=
        match h.authFunc with
        | some f => f req
        | none => req
      let attempt := world hop
      let hr := client.handle attempt.1 attempt.2 st
      match hr.err with
      | some e => { outcome := .done (some e), target := v, stats := hr.stats }
      | none =>
        match hr.resp with
        | none => { outcome := .nilResponse, target := v, stats := hr.stats }
        | some resp =>
          if resp.statusCode = StatusFound then
            client.Do h fuel world (hop + 1) "GET" (headerGet resp.headers "Location")
              none none v hr.stats
          else
            let data := toByteArray resp.body
            if ok resp.statusCode = false then
              { outcome := .done (some (.errorMessage
                  { StatusCode := resp.statusCode, Data := data })),
                target := v, stats := hr.stats }
            else
              match v with
              | .nilRef => { outcome := .done none, target := v, stats := hr.stats }
              | _ =>
                let m := marshal data v
                { outcome := .done m.1, target := m.2, stats := hr.stats }

/-- The response of a redirecting server: 302 with a `Location` pointing
back at the same URL. -/
def loopResp : HttpResponse :=
  { statusCode := 302, headers := [("Location", "http://example.com/loop")], body := "" }

/-- A world in which every attempt answers `loopResp`: a redirect cycle. -/
def loopWorld : Nat → Race × TransportReply := fun _ =>
  (.transportFirst, { resp := some loopResp, err := none })

/-- A world whose transport always fails with a connection-refused error. -/
def refusedWorld : Nat → Race × TransportReply := fun _ =>
  (.transportFirst, { resp := none, err := some (.transportError "connection refused") })

/-- A world answering 200 with the body `[1]`. -/
def okWorld : Nat → Race × TransportReply := fun _ =>
  (.transportFirst,
    { resp := some { statusCode := 200, headers := [], body := "[1]" }, err := none })

/-- A world answering 500 with the body `[1]`. -/
def failWorld : Nat → Race × TransportReply := fun _ =>
  (.transportFirst,
    { resp := some { statusCode := 500, headers := [], body := "[1]" }, err := none })

example : parseJson (String.mk ['[', '1', '2', ',', 'n', 'u', 'l', 'l', ']']) =
    some (.arr [.num 12, .null]) := by rfl

example : parseJson (jsonEncode (.obj [("a", .num (-7))])) = some (.obj [("a", .num (-7))]) := by
  rfl

theorem digitChar_isDigit (d : Nat) : (digitChar d).isDigit = true := by
  unfold digitChar; split <;> decide

theorem digitChar_ne_dash (d : Nat) : digitChar d ≠ '-' := by
  unfold digitChar; split <;> decide

theorem digitChar_ne_rbracket (d : Nat) : digitChar d ≠ ']' := by
  unfold digitChar; split <;> decide

theorem charVal_digitChar (d : Nat) (h : d < 10) : charVal (digitChar d) = d := by
  interval_cases d <;> rfl

theorem toDigitsLEGo_lt (f n : Nat) : ∀ d ∈ toDigitsLEGo f n, d < 10 := by
  induction f generalizing n with
  | zero => intro d hd; simp [toDigitsLEGo] at hd
  | succ f ih =>
    intro d hd
    unfold toDigitsLEGo at hd
    by_cases h : n = 0
    · simp [h] at hd
    · simp [h] at hd
      rcases hd with h1 | h2
      · omega
      · exact ih _ d h2

theorem toDigitsLEGo_foldr (f : Nat) :
    ∀ n, n < f → (toDigitsLEGo f n).foldr (fun d a => d + 10 * a) 0 = n := by
  induction f with
  | zero => intro n h; omega
  | succ f ih =>
    intro n h
    unfold toDigitsLEGo
    by_cases h0 : n = 0
    · simp [h0]
    · simp only [h0, if_false, List.foldr_cons]
      have hlt : n / 10 < f := by
        have := Nat.div_lt_self (Nat.pos_of_ne_zero h0) (by omega : 1 < 10)
        omega
      rw [ih (n / 10) hlt]
      omega

theorem natChars_eq_map (n : Nat) : natChars n = (natDigitsBE n).map digitChar := by
  unfold natChars natDigitsBE
  by_cases h : n = 0 <;> simp [h, digitChar]

theorem natDigitsBE_lt (n : Nat) : ∀ d ∈ natDigitsBE n, d < 10 := by
  unfold natDigitsBE
  by_cases h : n = 0
  · simp [h]
  · simp only [h, if_false, List.mem_reverse]
    exact toDigitsLEGo_lt _ _

theorem natDigitsBE_ne_nil (n : Nat) : natDigitsBE n ≠ [] := by
  unfold natDigitsBE
  by_cases h : n = 0
  · simp [h]
  · simp only [h, if_false, ne_eq, List.reverse_eq_nil_iff]
    unfold toDigitsLEGo
    simp [h]

theorem ofDigits_natDigitsBE (n : Nat) : ofDigits (natDigitsBE n) = n := by
  unfold ofDigits natDigitsBE
  by_cases h : n = 0
  · simp [h]
  · simp only [h, if_false, List.foldl_reverse]
    have := toDigitsLEGo_foldr (n + 1) n (by omega)
    calc (toDigitsLEGo (n + 1) n).foldr (fun x y => 10 * y + x) 0
        = (toDigitsLEGo (n + 1) n).foldr (fun d a => d + 10 * a) 0 := by
          congr 1; funext x y; omega
      _ = n := this

theorem parseDigits_not_digit (rest : List Char) (h : headDigit rest = false) :
    parseDigits rest = ([], rest) := by
  cases rest with
  | nil => rfl
  | cons c r =>
    simp [headDigit] at h
    simp [parseDigits, h]

theorem parseDigits_append (ds : List Char) (rest : List Char)
    (hds : ∀ c ∈ ds, c.isDigit = true) (h : headDigit rest = false) :
    parseDigits (ds ++ rest) = (ds.map charVal, rest) := by
  induction ds with
  | nil => simpa using parseDigits_not_digit rest h
  | cons c cs ih =>
    have hc : c.isDigit = true := hds c (by simp)
    simp only [List.cons_append, parseDigits, hc, if_true]
    rw [show cs.append rest = cs ++ rest from rfl, ih (fun x hx => hds x (by simp [hx]))]
    simp

theorem map_charVal_map_digitChar (ds : List Nat) (h : ∀ d ∈ ds, d < 10) :
    (ds.map digitChar).map charVal = ds := by
  induction ds with
  | nil => rfl
  | cons d ds ih =>
    simp only [List.map_cons, List.cons.injEq]
    exact ⟨charVal_digitChar d (h d (by simp)), ih (fun x hx => h x (by simp [hx]))⟩

theorem natChars_isDigit (m : Nat) : ∀ c ∈ natChars m, c.isDigit = true := by
  rw [natChars_eq_map]
  intro c hc
  simp only [List.mem_map] at hc
  obtain ⟨d, _, rfl⟩ := hc
  exact digitChar_isDigit d

theorem parseDigits_natChars (m : Nat) (rest : List Char) (h : headDigit rest = false) :
    parseDigits (natChars m ++ rest) = (natDigitsBE m, rest) := by
  rw [natChars_eq_map, parseDigits_append _ rest (by
    intro c hc
    simp only [List.mem_map] at hc
    obtain ⟨d, _, rfl⟩ := hc
    exact digitChar_isDigit d) h,
    map_charVal_map_digitChar _ (natDigitsBE_lt _)]

theorem natChars_head (m : Nat) : ∃ d cs, natChars m = digitChar d :: cs := by
  rw [natChars_eq_map]
  rcases hd : natDigitsBE m with _ | ⟨d, ds⟩
  · exact absurd hd (natDigitsBE_ne_nil m)
  · exact ⟨d, ds.map digitChar, by simp⟩

theorem parseNumber_encNum (n : Int) (rest : List Char) (h : headDigit rest = false) :
    parseNumber (encNum n ++ rest) = some (.num n, rest) := by
  by_cases hn : n < 0
  · simp only [encNum, hn, if_true, List.cons_append]
    unfold parseNumber
    simp only [if_pos rfl]
    rw [parseDigits_natChars _ rest h]
    rcases hd : natDigitsBE n.natAbs with _ | ⟨d, ds⟩
    · exact absurd hd (natDigitsBE_ne_nil _)
    · simp only []
      rw [← hd, ofDigits_natDigitsBE,
        Int.ofNat_natAbs_of_nonpos (by omega : n ≤ 0), neg_neg]
      simp
  · simp only [encNum, hn, if_false]
    obtain ⟨d, cs, hnc⟩ := natChars_head n.toNat
    rw [hnc, List.cons_append]
    simp only [parseNumber]
    rw [if_neg (digitChar_ne_dash d), ← List.cons_append, ← hnc,
      parseDigits_natChars _ rest h]
    rcases hd : natDigitsBE n.toNat with _ | ⟨d2, ds⟩
    · exact absurd hd (natDigitsBE_ne_nil _)
    · simp only []
      rw [← hd, ofDigits_natDigitsBE, Int.toNat_of_nonneg (by omega : 0 ≤ n)]

theorem parseStringBody_escape (cs : List Char) (rest : List Char) :
    parseStringBody (escapeChars cs ++ ('"' :: rest)) = some (cs, rest) := by
  induction cs with
  | nil =>
    show parseStringBody ([] ++ ('"' :: rest)) = some ([], rest)
    rw [List.nil_append, parseStringBody.eq_def]
    simp
  | cons c cs ih =>
    by_cases hc : c = '"' ∨ c = '\\'
    · simp only [escapeChars, hc, if_true, List.cons_append, List.nil_append]
      rw [parseStringBody.eq_def]
      simp only [List.cons.injEq, reduceIte]
      rw [ih]
      simp
    · push_neg at hc
      simp only [escapeChars, hc, if_false, List.cons_append, List.nil_append,
        or_self, List.singleton_append]
      rw [parseStringBody.eq_def]
      simp only []
      rw [if_neg hc.1, if_neg hc.2, ih]

theorem startsNumber_cons (c : Char) (cs : List Char) :
    startsNumber (c :: cs) = (c.isDigit || c == '-') := rfl

theorem headDigit_cons (c : Char) (cs : List Char) : headDigit (c :: cs) = c.isDigit := rfl

theorem startsNumber_encNum (n : Int) (rest : List Char) :
    startsNumber (encNum n ++ rest) = true := by
  by_cases hn : n < 0
  · simp only [encNum, hn, if_true, List.cons_append, startsNumber_cons]
    decide
  · obtain ⟨d, cs, hc⟩ := natChars_head n.toNat
    simp only [encNum, hn, if_false, hc, List.cons_append, startsNumber_cons,
      digitChar_isDigit d, Bool.true_or]

theorem encV_head (j : Json) : ∃ c cs, encV j = c :: cs ∧ c ≠ ']' := by
  cases j with
  | null => exact ⟨'n', _, rfl, by decide⟩
  | bool b =>
    cases b with
    | true => exact ⟨'t', _, rfl, by decide⟩
    | false => exact ⟨'f', _, rfl, by decide⟩
  | num n =>
    by_cases hn : n < 0
    · exact ⟨'-', natChars n.natAbs, by simp [encV, encNum, hn], by decide⟩
    · obtain ⟨d, cs, hc⟩ := natChars_head n.toNat
      exact ⟨digitChar d, cs, by simp [encV, encNum, hn, hc], digitChar_ne_rbracket d⟩
  | str s => exact ⟨'"', _, rfl, by decide⟩
  | arr xs =>
    cases xs with
    | nil => exact ⟨'[', _, rfl, by decide⟩
    | cons x xs => exact ⟨'[', _, rfl, by decide⟩
  | obj fs =>
    cases fs with
    | nil => exact ⟨'{', _, rfl, by decide⟩
    | cons f fs =>
      obtain ⟨k, v⟩ := f
      exact ⟨'{', _, rfl, by decide⟩

theorem headDigit_encTail (xs : List Json) (rest : List Char) :
    headDigit (encTail xs ++ rest) = false := by
  cases xs <;> simp only [encTail, List.cons_append, headDigit_cons] <;> decide

theorem headDigit_encFTail (fs : List (String × Json)) (rest : List Char) :
    headDigit (encFTail fs ++ rest) = false := by
  cases fs with
  | nil => simp only [encFTail, List.cons_append, headDigit_cons]; decide
  | cons f fs =>
    obtain ⟨k, v⟩ := f
    simp only [encFTail, List.cons_append, headDigit_cons]
    decide

theorem pv_complete (f : Nat) :
    (∀ j rest, (encV j).length + rest.length < f → headDigit rest = false →
      pv f (encV j ++ rest) = some (j, rest)) ∧
    (∀ xs rest, (encTail xs).length + rest.length < f →
      parseArrTail f (encTail xs ++ rest) = some (xs, rest)) ∧
    (∀ fs rest, (encFTail fs).length + rest.length < f →
      parseObjTail f (encFTail fs ++ rest) = some (fs, rest)) := by
  induction f using Nat.strong_induction_on with
  | _ f ih =>
  match f with
  | 0 =>
    refine ⟨fun j rest hlen _ => absurd hlen (by omega),
      fun xs rest hlen => absurd hlen (by omega),
      fun fs rest hlen => absurd hlen (by omega)⟩
  | g + 1 =>
    obtain ⟨ihv, iha, iho⟩ := ih g (Nat.lt_succ_self g)
    refine ⟨?_, ?_, ?_⟩
    · intro j rest hlen hrest
      cases j with
      | null => exact rfl
      | bool b => cases b <;> exact rfl
      | num n =>
        show pv (g + 1) (encNum n ++ rest) = some (Json.num n, rest)
        rw [pv.eq_def]
        simp only [startsNumber_encNum n rest, if_true]
        exact parseNumber_encNum n rest hrest
      | str s =>
        obtain ⟨sd⟩ := s
        have hshape : encV (Json.str (String.mk sd)) ++ rest =
            '"' :: (escapeChars sd ++ ('"' :: rest)) := by
          show ('"' :: (escapeChars sd ++ ['"'])) ++ rest = _
          simp [List.append_assoc]
        rw [hshape]
        rw [show pv (g + 1) ('"' :: (escapeChars sd ++ ('"' :: rest))) =
            (match parseStringBody (escapeChars sd ++ ('"' :: rest)) with
             | some (s, r) => some (.str (String.mk s), r)
             | none => none) from rfl]
        rw [parseStringBody_escape]
      | arr elems =>
        cases elems with
        | nil => exact rfl
        | cons x xs =>
          obtain ⟨c, cs', hx, hcne⟩ := encV_head x
          have hshape : encV (Json.arr (x :: xs)) ++ rest =
              '[' :: (encV x ++ (encTail xs ++ rest)) := by
            show ('[' :: (encV x ++ encTail xs)) ++ rest = _
            simp [List.append_assoc]
          rw [hshape, pv.eq_def]
          have hsn : startsNumber ('[' :: (encV x ++ (encTail xs ++ rest))) = false := by
            rw [startsNumber_cons]; decide
          simp only [hsn, Bool.false_eq_true, if_false]
          have hhd : (encV x ++ (encTail xs ++ rest)).headD ' ' ≠ ']' := by
            rw [hx, List.cons_append, List.headD_cons]; exact hcne
          rw [if_neg hhd]
          rw [show encV (Json.arr (x :: xs)) = '[' :: (encV x ++ encTail xs) from rfl] at hlen
          simp only [List.length_cons, List.length_append] at hlen
          have hxlen : 1 ≤ (encV x).length := by rw [hx]; simp
          rw [ihv x (encTail xs ++ rest) (by simp only [List.length_append]; omega)
            (headDigit_encTail xs rest)]
          simp only []
          rw [iha xs rest (by omega)]
      | obj fields =>
        cases fields with
        | nil => exact rfl
        | cons kv fs =>
          obtain ⟨k, v⟩ := kv
          obtain ⟨kd⟩ := k
          have hshape : encV (Json.obj ((String.mk kd, v) :: fs)) ++ rest =
              '{' :: '"' :: (escapeChars kd ++ ('"' :: ':' :: (encV v ++ (encFTail fs ++ rest)))) := by
            show ('{' :: '"' :: (escapeChars kd ++ '"' :: ':' :: (encV v ++ encFTail fs))) ++ rest = _
            simp [List.append_assoc]
          rw [hshape]
          rw [show pv (g + 1)
              ('{' :: '"' :: (escapeChars kd ++ ('"' :: ':' :: (encV v ++ (encFTail fs ++ rest))))) =
              (match parseStringBody (escapeChars kd ++ ('"' :: ':' :: (encV v ++ (encFTail fs ++ rest)))) with
               | some (k2, r1) =>
                   match r1 with
                   | ':' :: r2 =>
                       match pv g r2 with
                       | some (v2, r3) =>
                           match parseObjTail g r3 with
                           | some (fs2, r4) => some (.obj ((String.mk k2, v2) :: fs2), r4)
                           | none => none
                       | none => none
                   | _ => none
               | none => none) from rfl]
          rw [show ('"' :: ':' :: (encV v ++ (encFTail fs ++ rest))) =
            ('"' :: (':' :: (encV v ++ (encFTail fs ++ rest)))) from rfl]
          rw [parseStringBody_escape]
          simp only []
          rw [show encV (Json.obj ((String.mk kd, v) :: fs)) =
            '{' :: '"' :: (escapeChars kd ++ '"' :: ':' :: (encV v ++ encFTail fs)) from rfl] at hlen
          simp only [List.length_cons, List.length_append] at hlen
          obtain ⟨c, cs', hv, _⟩ := encV_head v
          have hvlen : 1 ≤ (encV v).length := by rw [hv]; simp
          rw [ihv v (encFTail fs ++ rest) (by simp only [List.length_append]; omega)
            (headDigit_encFTail fs rest)]
          simp only []
          rw [iho fs rest (by omega)]
    · intro xs rest hlen
      cases xs with
      | nil => exact rfl
      | cons x xs =>
        have hshape : encTail (x :: xs) ++ rest = ',' :: (encV x ++ (encTail xs ++ rest)) := by
          show (',' :: (encV x ++ encTail xs)) ++ rest = _
          simp [List.append_assoc]
        rw [hshape]
        rw [show parseArrTail (g + 1) (',' :: (encV x ++ (encTail xs ++ rest))) =
            (match pv g (encV x ++ (encTail xs ++ rest)) with
             | some (x2, r1) =>
                 match parseArrTail g r1 with
                 | some (xs2, r2) => some (x2 :: xs2, r2)
                 | none => none
             | none => none) from rfl]
        rw [show encTail (x :: xs) = ',' :: (encV x ++ encTail xs) from rfl] at hlen
        simp only [List.length_cons, List.length_append] at hlen
        obtain ⟨c, cs', hx, _⟩ := encV_head x
        have hxlen : 1 ≤ (encV x).length := by rw [hx]; simp
        rw [ihv x (encTail xs ++ rest) (by simp only [List.length_append]; omega)
          (headDigit_encTail xs rest)]
        simp only []
        rw [iha xs rest (by omega)]
    · intro fs rest hlen
      cases fs with
      | nil => exact rfl
      | cons kv fs =>
        obtain ⟨k, v⟩ := kv
        obtain ⟨kd⟩ := k
        have hshape : encFTail ((String.mk kd, v) :: fs) ++ rest =
            ',' :: '"' :: (escapeChars kd ++ ('"' :: ':' :: (encV v ++ (encFTail fs ++ rest)))) := by
          show (',' :: '"' :: (escapeChars kd ++ '"' :: ':' :: (encV v ++ encFTail fs))) ++ rest = _
          simp [List.append_assoc]
        rw [hshape]
        rw [show parseObjTail (g + 1)
            (',' :: '"' :: (escapeChars kd ++ ('"' :: ':' :: (encV v ++ (encFTail fs ++ rest))))) =
            (match parseStringBody (escapeChars kd ++ ('"' :: ':' :: (encV v ++ (encFTail fs ++ rest)))) with
             | some (k2, r1) =>
                 match r1 with
                 | ':' :: r2 =>
                     match pv g r2 with
                     | some (v2, r3) =>
                         match parseObjTail g r3 with
                         | some (fs2, r4) => some ((String.mk k2, v2) :: fs2, r4)
                         | none => none
                     | none => none
                 | _ => none
             | none => none) from rfl]
        rw [show ('"' :: ':' :: (encV v ++ (encFTail fs ++ rest))) =
          ('"' :: (':' :: (encV v ++ (encFTail fs ++ rest)))) from rfl]
        rw [parseStringBody_escape]
        simp only []
        rw [show encFTail ((String.mk kd, v) :: fs) =
          ',' :: '"' :: (escapeChars kd ++ '"' :: ':' :: (encV v ++ encFTail fs)) from rfl] at hlen
        simp only [List.length_cons, List.length_append] at hlen
        obtain ⟨c, cs', hv, _⟩ := encV_head v
        have hvlen : 1 ≤ (encV v).length := by rw [hv]; simp
        rw [ihv v (encFTail fs ++ rest) (by simp only [List.length_append]; omega)
          (headDigit_encFTail fs rest)]
        simp only []
        rw [iho fs rest (by omega)]

/-- Round trip of the `encoding/json` model: parsing a serialized value
yields the value back. -/
theorem parseJson_jsonEncode (j : Json) : parseJson (jsonEncode j) = some j := by
  unfold parseJson jsonEncode
  have hdata : (String.mk (encV j)).data = encV j := rfl
  rw [hdata]
  have h := (pv_complete ((encV j).length + 1)).1 j [] (by simp) rfl
  rw [List.append_nil] at h
  rw [h]

theorem ok_eq_true_iff (s : Int) : ok s = true ↔ (200 ≤ s ∧ s < 300) := by
  unfold ok
  rw [beq_iff_eq]
  rcases s with n | n
  · rw [show ((Int.ofNat n).tdiv 100) = Int.ofNat (n / 100) from rfl]
    simp only [Int.ofNat_eq_natCast]
    omega
  · rw [show ((Int.negSucc n).tdiv 100) = -(((n + 1) / 100 : Nat) : Int) from rfl]
    rw [Int.negSucc_coe]
    omega

/-- Claim C1: when the cancellation signal fires strictly before the
transport delivers (the `select` takes the `ctx.Done()` branch),
`client.handle` invokes `CancelRequest` exactly once, blocks for the
background task's discarded result, returns `ctx.Err()` — the signal's
reason, never the transport's pair — with a nil response, and the
background task has terminated before `handle` returns. -/
theorem handle_cancel_first_returns_ctx_err (reason : CancelReason)
    (reply : TransportReply) (st : NetStats) :
    client.handle (.ctxDoneFirst reason) reply st =
      { resp := none, err := some (.ctxErr reason), bgTerminated := true,
        stats := { transports := st.transports + 1, roundTrips := st.roundTrips + 1,
                   cancels := st.cancels + 1 } } := rfl

/-- Claim C2: when the transport completes first, `client.handle` returns
exactly the `(Response, error)` pair of `RoundTrip` with no cancel issued
and the goroutine terminated; and a transport-level error from `handle`
is returned verbatim by `Do`, with exactly one `RoundTrip` (no retry) and
the caller's target untouched. -/
theorem handle_transport_first_unmodified :
    (∀ (reply : TransportReply) (st : NetStats),
      client.handle .transportFirst reply st =
        { resp := reply.resp, err := reply.err, bgTerminated := true,
          stats := { transports := st.transports + 1, roundTrips := st.roundTrips + 1,
                     cancels := st.cancels } }) ∧
    (∀ (h : client) (fuel : Nat) (world : Nat → Race × TransportReply) (hop : Nat)
      (method path : String) (params : Option UrlValues) (payload : Option GoValue)
      (v : Target) (st : NetStats) (req : HttpRequest) (msg : String),
      newRequest h.UserAgent method path params payload = .ok req →
      world hop = (.transportFirst, { resp := none, err := some (.transportError msg) }) →
      client.Do h (fuel + 1) world hop method path params payload v st =
        { outcome := .done (some (.transportError msg)), target := v,
          stats := { transports := st.transports + 1, roundTrips := st.roundTrips + 1,
                     cancels := st.cancels } }) := by
  refine ⟨fun reply st => rfl, ?_⟩
  intro h fuel world hop method path params payload v st req msg hreq hw
  simp only [client.Do, hreq, hw]
  rfl

/-- Claim C3: `ok` accepts exactly the status codes in `[200, 300)`; in
particular 200 and 299 are successes while 199, 300 and the redirect
code 302 are failures. -/
theorem ok_iff_status_2xx :
    (∀ s : Int, ok s = true ↔ (200 ≤ s ∧ s < 300)) ∧
    (ok 200 = true ∧ ok 299 = true ∧ ok 199 = false ∧ ok 300 = false ∧ ok 302 = false) :=
  ⟨ok_eq_true_iff, by decide, by decide, by decide, by decide, by decide⟩

/-- Claim C7: with an empty target string, `Do` fails with `EmptyPathErr`
— for every payload, including ones whose serialization would fail, so
the check precedes all other work — leaves the target untouched, and
performs no transport activity: the counters are unchanged, so no
transport is created and `RoundTrip` is never invoked. -/
theorem do_empty_target_no_network (h : client) (fuel : Nat)
    (world : Nat → Race × TransportReply) (hop : Nat) (method : String)
    (params : Option UrlValues) (payload : Option GoValue) (v : Target) (st : NetStats) :
    client.Do h (fuel + 1) world hop method "" params payload v st =
      { outcome := .done (some EmptyPathErr), target := v, stats := st } := rfl

/-- Claim C9: serializing any JSON payload with `toJson` and decoding the
bytes through the success-path decoder `marshal` into a generic target
yields the original value: encode followed by decode is the identity. -/
theorem toJson_marshal_roundtrip (j : Json) (t : Option Json) :
    toJson (some (.json j)) = .ok (some (jsonEncode j)) ∧
    marshal (jsonEncode j) (.jsonRef t) = (none, .jsonRef (some j)) := by
  refine ⟨rfl, ?_⟩
  unfold marshal
  rw [parseJson_jsonEncode]

/-- One successful transport hop: `Do` reduces to the redirect check,
then the status classification, then the decode dispatch. -/
theorem do_unfold_success (h : client) (fuel : Nat) (world : Nat → Race × TransportReply)
    (hop : Nat) (method path : String) (params : Option UrlValues) (payload : Option GoValue)
    (v : Target) (st : NetStats) (req : HttpRequest) (resp : HttpResponse)
    (hreq : newRequest h.UserAgent method path params payload = .ok req)
    (hw : world hop = (.transportFirst, { resp := some resp, err := none })) :
    client.Do h (fuel + 1) world hop method path params payload v st =
      (if resp.statusCode = StatusFound then
        client.Do h fuel world (hop + 1) "GET" (headerGet resp.headers "Location") none none v
          { transports := st.transports + 1, roundTrips := st.roundTrips + 1,
            cancels := st.cancels }
      else if ok resp.statusCode = false then
        { outcome := .done (some (.errorMessage
            { StatusCode := resp.statusCode, Data := toByteArray resp.body })),
          target := v,
          stats := { transports := st.transports + 1, roundTrips := st.roundTrips + 1,
                     cancels := st.cancels } }
      else
        match v with
        | .nilRef =>
          { outcome := .done none, target := v,
            stats := { transports := st.transports + 1, roundTrips := st.roundTrips + 1,
                       cancels := st.cancels } }
        | _ =>
          { outcome := .done (marshal (toByteArray resp.body) v).1,
            target := (marshal (toByteArray resp.body) v).2,
            stats := { transports := st.transports + 1, roundTrips := st.roundTrips + 1,
                       cancels := st.cancels } }) := by
  simp only [client.Do, hreq, hw]
  rfl

/-- Claim C4: on a 302 response — whatever the original method — `Do`
returns the result of re-entering the whole pipeline as a GET on the
`Location` header with nil params and nil body and the same target,
performing no classification and no decode on the redirect response
itself; and the re-entry has no depth limit: on a redirect cycle no
amount of fuel produces an outcome. -/
theorem do_redirect_reenters_as_get (h : client) (fuel : Nat)
    (world : Nat → Race × TransportReply) (hop : Nat) (method path : String)
    (params : Option UrlValues) (payload : Option GoValue) (v : Target) (st : NetStats)
    (req : HttpRequest) (resp : HttpResponse)
    (hreq : newRequest h.UserAgent method path params payload = .ok req)
    (hw : world hop = (.transportFirst, { resp := some resp, err := none }))
    (h302 : resp.statusCode = StatusFound) :
    client.Do h (fuel + 1) world hop method path params payload v st =
      client.Do h fuel world (hop + 1) "GET" (headerGet resp.headers "Location") none none v
        { transports := st.transports + 1, roundTrips := st.roundTrips + 1,
          cancels := st.cancels } ∧
    (∀ (n : Nat) (hop2 : Nat) (v2 : Target) (st2 : NetStats),
      (client.Do { authFunc := none, UserAgent := "ua" } n loopWorld hop2 "GET"
        "http://example.com/loop" none none v2 st2).outcome = .fuelOut) := by
  constructor
  · rw [do_unfold_success h fuel world hop method path params payload v st req resp hreq hw]
    rw [if_pos h302]
  · intro n
    induction n with
    | zero => intro hop2 v2 st2; rfl
    | succ n ihn =>
      intro hop2 v2 st2
      rw [do_unfold_success { authFunc := none, UserAgent := "ua" } n loopWorld hop2 "GET"
        "http://example.com/loop" none none v2 st2
        { method := "GET", url := "http://example.com/loop",
          headers := [("User-Agent", "ua"), ("Accept", "application/json"),
                      ("Content-Type", "application/json")], body := none }
        loopResp rfl rfl]
      rw [if_pos (show loopResp.statusCode = StatusFound from rfl)]
      exact ihn (hop2 + 1) v2 _

/-- Witness for claim C4 at a concrete redirect. -/
theorem do_redirect_reenters_as_get_witness :
    client.Do { authFunc := none, UserAgent := "u" } 2 loopWorld 0 "POST"
        "http://a" none none .nilRef { transports := 0, roundTrips := 0, cancels := 0 } =
      client.Do { authFunc := none, UserAgent := "u" } 1 loopWorld 1 "GET"
        "http://example.com/loop" none none .nilRef
        { transports := 1, roundTrips := 1, cancels := 0 } :=
  (do_redirect_reenters_as_get { authFunc := none, UserAgent := "u" } 1 loopWorld 0 "POST"
    "http://a" none none .nilRef { transports := 0, roundTrips := 0, cancels := 0 }
    { method := "POST", url := "http://a",
      headers := [("User-Agent", "u"), ("Accept", "application/json"),
                  ("Content-Type", "application/json")], body := none }
    { statusCode := 302, headers := [("Location", "http://example.com/loop")], body := "" }
    rfl rfl rfl).1

/-- Witness for claim C2: a concrete transport error is returned verbatim
by `Do` after one `RoundTrip`. -/
theorem handle_transport_first_unmodified_witness :
    client.Do { authFunc := none, UserAgent := "u" } 1 refusedWorld 0 "GET" "http://a"
        none none .nilRef { transports := 0, roundTrips := 0, cancels := 0 } =
      { outcome := .done (some (.transportError "connection refused")), target := .nilRef,
        stats := { transports := 1, roundTrips := 1, cancels := 0 } } :=
  handle_transport_first_unmodified.2 { authFunc := none, UserAgent := "u" } 0 refusedWorld 0
    "GET" "http://a" none none .nilRef { transports := 0, roundTrips := 0, cancels := 0 }
    { method := "GET", url := "http://a",
      headers := [("User-Agent", "u"), ("Accept", "application/json"),
                  ("Content-Type", "application/json")], body := none }
    "connection refused" rfl rfl

/-- Claim C8: on a successful (2xx, hence non-302) response the decoder
dispatches on the target: nil target skips decoding and returns nil;
`*[]byte` receives the raw bytes; `*string` receives them as a string;
any other target goes through the JSON parser, whose failure is the
error `Do` returns, the target keeping its prior value. -/
theorem do_success_decode_dispatch (h : client) (fuel : Nat)
    (world : Nat → Race × TransportReply) (hop : Nat) (method path : String)
    (params : Option UrlValues) (payload : Option GoValue) (v : Target) (st : NetStats)
    (req : HttpRequest) (resp : HttpResponse)
    (hreq : newRequest h.UserAgent method path params payload = .ok req)
    (hw : world hop = (.transportFirst, { resp := some resp, err := none }))
    (hok : ok resp.statusCode = true) :
    (v = .nilRef → client.Do h (fuel + 1) world hop method path params payload v st =
      { outcome := .done none, target := .nilRef,
        stats := { transports := st.transports + 1, roundTrips := st.roundTrips + 1,
                   cancels := st.cancels } }) ∧
    (∀ b0, v = .bytesRef b0 → client.Do h (fuel + 1) world hop method path params payload v st =
      { outcome := .done none, target := .bytesRef resp.body,
        stats := { transports := st.transports + 1, roundTrips := st.roundTrips + 1,
                   cancels := st.cancels } }) ∧
    (∀ s0, v = .strRef s0 → client.Do h (fuel + 1) world hop method path params payload v st =
      { outcome := .done none, target := .strRef resp.body,
        stats := { transports := st.transports + 1, roundTrips := st.roundTrips + 1,
                   cancels := st.cancels } }) ∧
    (∀ t j, v = .jsonRef t → parseJson resp.body = some j →
      client.Do h (fuel + 1) world hop method path params payload v st =
      { outcome := .done none, target := .jsonRef (some j),
        stats := { transports := st.transports + 1, roundTrips := st.roundTrips + 1,
                   cancels := st.cancels } }) ∧
    (∀ t, v = .jsonRef t → parseJson resp.body = none →
      client.Do h (fuel + 1) world hop method path params payload v st =
      { outcome := .done (some .jsonDecodeErr), target := .jsonRef t,
        stats := { transports := st.transports + 1, roundTrips := st.roundTrips + 1,
                   cancels := st.cancels } }) := by
  have hne : ¬ resp.statusCode = StatusFound := by
    have h2 := (ok_eq_true_iff resp.statusCode).1 hok
    unfold StatusFound
    omega
  have hbase := do_unfold_success h fuel world hop method path params payload v st req resp
    hreq hw
  rw [if_neg hne, hok] at hbase
  rw [if_neg (by simp : ¬ (true : Bool) = false)] at hbase
  refine ⟨?_, ?_, ?_, ?_, ?_⟩
  · intro hv; subst hv; rw [hbase]
  · intro b0 hv; subst hv; rw [hbase]; rfl
  · intro s0 hv; subst hv; rw [hbase]; rfl
  · intro t j hv hj; subst hv; rw [hbase]
    simp only [marshal, toByteArray, hj]
  · intro t hv hj; subst hv; rw [hbase]
    simp only [marshal, toByteArray, hj]

/-- Witness for claim C8: a `*[]byte` target receives the raw bytes of a
200 response. -/
theorem do_success_decode_dispatch_witness :
    client.Do { authFunc := none, UserAgent := "u" } 1 okWorld 0 "GET" "http://a"
        none none (.bytesRef "") { transports := 0, roundTrips := 0, cancels := 0 } =
      { outcome := .done none, target := .bytesRef "[1]",
        stats := { transports := 1, roundTrips := 1, cancels := 0 } } :=
  (do_success_decode_dispatch { authFunc := none, UserAgent := "u" } 0 okWorld 0 "GET"
    "http://a" none none (.bytesRef "") { transports := 0, roundTrips := 0, cancels := 0 }
    { method := "GET", url := "http://a",
      headers := [("User-Agent", "u"), ("Accept", "application/json"),
                  ("Content-Type", "application/json")], body := none }
    { statusCode := 200, headers := [], body := "[1]" }
    rfl rfl rfl).2.1 "" rfl

/-- Claim C10: on a response that is neither 2xx nor 302, `Do` never
writes to the caller's target: the target cell is returned exactly as it
was, the fully drained body and the status code are carried by the
returned `ErrorMessage`, and that message re-decodes its body via
`ErrorMessage.Unmarshal`. -/
theorem do_error_status_preserves_target (h : client) (fuel : Nat)
    (world : Nat → Race × TransportReply) (hop : Nat) (method path : String)
    (params : Option UrlValues) (payload : Option GoValue) (v : Target) (st : NetStats)
    (req : HttpRequest) (resp : HttpResponse)
    (hreq : newRequest h.UserAgent method path params payload = .ok req)
    (hw : world hop = (.transportFirst, { resp := some resp, err := none }))
    (hok : ok resp.statusCode = false) (hnf : resp.statusCode ≠ StatusFound) :
    client.Do h (fuel + 1) world hop method path params payload v st =
      { outcome := .done (some (.errorMessage
          { StatusCode := resp.statusCode, Data := resp.body })),
        target := v,
        stats := { transports := st.transports + 1, roundTrips := st.roundTrips + 1,
                   cancels := st.cancels } } ∧
    (∀ j, parseJson resp.body = some j →
      ErrorMessage.Unmarshal { StatusCode := resp.statusCode, Data := resp.body } none =
        (none, some j)) := by
  constructor
  · have hbase := do_unfold_success h fuel world hop method path params payload v st req resp
      hreq hw
    rw [if_neg hnf, if_pos hok] at hbase
    exact hbase
  · intro j hj
    unfold ErrorMessage.Unmarshal
    simp only [hj]

/-- Witness for claim C10: a 500 response leaves a json target untouched
and surfaces the status and body in the `ErrorMessage`. -/
theorem do_error_status_preserves_target_witness :
    client.Do { authFunc := none, UserAgent := "u" } 1 failWorld 0 "GET" "http://a"
        none none (.jsonRef none) { transports := 0, roundTrips := 0, cancels := 0 } =
      { outcome := .done (some (.errorMessage { StatusCode := 500, Data := "[1]" })),
        target := .jsonRef none,
        stats := { transports := 1, roundTrips := 1, cancels := 0 } } :=
  (do_error_status_preserves_target { authFunc := none, UserAgent := "u" } 0 failWorld 0 "GET"
    "http://a" none none (.jsonRef none) { transports := 0, roundTrips := 0, cancels := 0 }
    { method := "GET", url := "http://a",
      headers := [("User-Agent", "u"), ("Accept", "application/json"),
                  ("Content-Type", "application/json")], body := none }
    { statusCode := 500, headers := [], body := "[1]" }
    rfl rfl rfl (by decide)).1

/-- Counterexample to claim C5: a request built with no body still
carries `Content-Type: application/json` — the source sets the header
unconditionally. -/
theorem newRequest_content_type_without_body_cex :
    (newRequest "agent" "GET" "http://example.com" none none).toOption.map
      (fun r => (r.headers, r.body)) =
      some ([("User-Agent", "agent"), ("Accept", "application/json"),
             ("Content-Type", "application/json")], none) := rfl

/-- Claim C5 (amended): every request built by `newRequest` carries
`User-Agent` equal to the caller-supplied string, `Accept:
application/json`, and `Content-Type: application/json` — the latter
unconditionally, whether or not a body is present. -/
theorem newRequest_sets_headers (ua method path : String) (params : Option UrlValues)
    (payload : Option GoValue) (req : HttpRequest)
    (hreq : newRequest ua method path params payload = .ok req) :
    req.headers = [("User-Agent", ua), ("Accept", "application/json"),
                   ("Content-Type", "application/json")] := by
  unfold newRequest at hreq
  split at hreq
  · exact absurd hreq (by simp)
  · cases htj : toJson payload with
    | error e => rw [htj] at hreq; exact absurd hreq (by simp)
    | ok body =>
      rw [htj] at hreq
      simp only [Except.ok.injEq] at hreq
      rw [← hreq]
      rfl

/-- Witness for claim C5 at a concrete bodyless request. -/
theorem newRequest_sets_headers_witness :
    ({ method := "GET", url := "http://a",
       headers := [("User-Agent", "u"), ("Accept", "application/json"),
                   ("Content-Type", "application/json")], body := none } : HttpRequest).headers =
      [("User-Agent", "u"), ("Accept", "application/json"),
       ("Content-Type", "application/json")] :=
  newRequest_sets_headers "u" "GET" "http://a" none none _ rfl

theorem splitOnFirst_not_mem (c : Char) (l : List Char) (h : c ∉ l) :
    splitOnFirst c l = (l, none) := by
  induction l with
  | nil => rfl
  | cons x xs ih =>
    have hx : ¬ x = c := fun hxc => h (by simp [hxc])
    simp only [splitOnFirst, hx, if_false]
    rw [ih (fun hm => h (by simp [hm]))]

theorem splitOnFirst_append (c : Char) (a b : List Char) (h : c ∉ a) :
    splitOnFirst c (a ++ c :: b) = (a, some b) := by
  induction a with
  | nil => simp [splitOnFirst]
  | cons x xs ih =>
    have hx : ¬ x = c := fun hxc => h (by simp [hxc])
    simp only [List.cons_append, splitOnFirst, hx, if_false, List.append_eq]
    rw [ih (fun hm => h (by simp [hm]))]

theorem splitOnFirst_fst_props (c : Char) (l : List Char) :
    c ∉ (splitOnFirst c l).1 ∧ ∀ x ∈ (splitOnFirst c l).1, x ∈ l := by
  induction l with
  | nil => simp [splitOnFirst]
  | cons x xs ih =>
    by_cases hx : x = c
    · simp [splitOnFirst, hx]
    · simp only [splitOnFirst, hx, if_false]
      constructor
      · intro hmem
        rcases List.mem_cons.1 hmem with h1 | h2
        · exact hx h1.symm
        · exact ih.1 h2
      · intro y hy
        rcases List.mem_cons.1 hy with h1 | h2
        · simp [h1]
        · exact List.mem_cons_of_mem x (ih.2 y h2)

theorem urlParse_urlString (u : URL)
    (hb1 : '#' ∉ u.base.data) (hb2 : '?' ∉ u.base.data) (hq : '#' ∉ u.rawQuery.data) :
    urlParse (urlString u) = u := by
  obtain ⟨b, q, fr⟩ := u
  simp only at hb1 hb2 hq
  by_cases hqe : q = ""
  · by_cases hfe : fr = ""
    · subst hqe; subst hfe
      have h1 : (urlString { base := b, rawQuery := "", fragment := "" }).data = b.data := by
        unfold urlString
        rw [String.data_append, String.data_append]
        rw [show (if ("" : String) = "" then "" else "?" ++ "") = "" from rfl]
        rw [show (if ("" : String) = "" then "" else "#" ++ "") = "" from rfl]
        rw [show ("" : String).data = [] from rfl]
        simp
      unfold urlParse
      rw [h1, splitOnFirst_not_mem '#' b.data hb1]
      simp only []
      rw [splitOnFirst_not_mem '?' b.data hb2]
      rfl
    · subst hqe
      have h1 : (urlString { base := b, rawQuery := "", fragment := fr }).data =
          b.data ++ '#' :: fr.data := by
        unfold urlString
        rw [String.data_append, String.data_append]
        rw [show (if ("" : String) = "" then "" else "?" ++ "") = "" from rfl]
        rw [if_neg hfe]
        rw [show ("" : String).data = [] from rfl]
        rw [String.data_append]
        rw [show ("#" : String).data = ['#'] from rfl]
        simp
      unfold urlParse
      rw [h1, splitOnFirst_append '#' b.data fr.data hb1]
      simp only []
      rw [splitOnFirst_not_mem '?' b.data hb2]
      rfl
  · by_cases hfe : fr = ""
    · subst hfe
      have h1 : (urlString { base := b, rawQuery := q, fragment := "" }).data =
          b.data ++ '?' :: q.data := by
        unfold urlString
        rw [String.data_append, String.data_append]
        rw [if_neg hqe]
        rw [show (if ("" : String) = "" then "" else "#" ++ "") = "" from rfl]
        rw [show ("" : String).data = [] from rfl]
        rw [String.data_append]
        rw [show ("?" : String).data = ['?'] from rfl]
        simp
      unfold urlParse
      rw [h1]
      rw [splitOnFirst_not_mem '#' (b.data ++ '?' :: q.data) (by
        intro hm
        rcases List.mem_append.1 hm with h1 | h2
        · exact hb1 h1
        · rcases List.mem_cons.1 h2 with h3 | h4
          · exact absurd h3 (by decide)
          · exact hq h4)]
      simp only []
      rw [splitOnFirst_append '?' b.data q.data hb2]
      rfl
    · have h1 : (urlString { base := b, rawQuery := q, fragment := fr }).data =
          (b.data ++ '?' :: q.data) ++ '#' :: fr.data := by
        unfold urlString
        rw [String.data_append, String.data_append]
        rw [if_neg hqe, if_neg hfe]
        rw [String.data_append, String.data_append]
        rw [show ("?" : String).data = ['?'] from rfl]
        rw [show ("#" : String).data = ['#'] from rfl]
        simp [List.append_assoc]
      unfold urlParse
      rw [h1]
      rw [splitOnFirst_append '#' (b.data ++ '?' :: q.data) fr.data (by
        intro hm
        rcases List.mem_append.1 hm with h1 | h2
        · exact hb1 h1
        · rcases List.mem_cons.1 h2 with h3 | h4
          · exact absurd h3 (by decide)
          · exact hq h4)]
      simp only []
      rw [splitOnFirst_append '?' b.data q.data hb2]
      rfl

theorem hexDigit_ne_hash (d : Nat) : hexDigit d ≠ '#' := by
  unfold hexDigit; split <;> decide

theorem queryEscapeChar_ne_hash (a c : Char) (h : c ∈ queryEscapeChar a) : c ≠ '#' := by
  unfold queryEscapeChar at h
  by_cases h1 : isUnreserved a = true
  · simp only [h1, if_true, List.mem_singleton] at h
    subst h
    intro hc
    rw [hc] at h1
    exact absurd h1 (by decide)
  · simp only [h1, Bool.false_eq_true, if_false] at h
    by_cases h2 : a = ' '
    · subst h2
      rw [if_pos rfl] at h
      have hc := List.mem_singleton.1 h
      subst hc
      decide
    · simp only [h2, if_false] at h
      rcases List.mem_cons.1 h with h3 | h3
      · subst h3; decide
      · rcases List.mem_cons.1 h3 with h4 | h4
        · subst h4; exact hexDigit_ne_hash _
        · rcases List.mem_cons.1 h4 with h5 | h5
          · subst h5; exact hexDigit_ne_hash _
          · exact absurd h5 (List.not_mem_nil c)

theorem queryEscape_ne_hash (s : String) (c : Char) (h : c ∈ (queryEscape s).data) : c ≠ '#' := by
  unfold queryEscape at h
  rw [show (String.mk (s.data.flatMap queryEscapeChar)).data =
    s.data.flatMap queryEscapeChar from rfl] at h
  rw [List.mem_flatMap] at h
  obtain ⟨a, _, hc⟩ := h
  exact queryEscapeChar_ne_hash a c hc

theorem joinAmp_mem (parts : List String) (c : Char) (h : c ∈ (joinAmp parts).data) :
    (∃ s ∈ parts, c ∈ s.data) ∨ c = '&' := by
  induction parts with
  | nil =>
    rw [show (joinAmp []).data = [] from rfl] at h
    exact absurd h (List.not_mem_nil c)
  | cons s rest ih =>
    cases rest with
    | nil => exact Or.inl ⟨s, by simp, by simpa [joinAmp] using h⟩
    | cons s2 rest2 =>
      rw [show joinAmp (s :: s2 :: rest2) = s ++ "&" ++ joinAmp (s2 :: rest2) from rfl] at h
      rw [String.data_append, String.data_append] at h
      rw [show ("&" : String).data = ['&'] from rfl] at h
      rcases List.mem_append.1 h with h1 | h2
      · rcases List.mem_append.1 h1 with h11 | h12
        · exact Or.inl ⟨s, by simp, h11⟩
        · exact Or.inr (by simpa using h12)
      · rcases ih h2 with ⟨s3, hs3, hc3⟩ | hc
        · exact Or.inl ⟨s3, by simp [hs3], hc3⟩
        · exact Or.inr hc

theorem encode_ne_hash (ps : UrlValues) (c : Char) (h : c ∈ (UrlValues.Encode ps).data) :
    c ≠ '#' := by
  unfold UrlValues.Encode at h
  rcases joinAmp_mem _ c h with ⟨s, hs, hc⟩ | hc
  · rw [List.mem_flatMap] at hs
    obtain ⟨p, _, hp⟩ := hs
    rw [List.mem_map] at hp
    obtain ⟨v, _, rfl⟩ := hp
    rw [String.data_append, String.data_append] at hc
    rcases List.mem_append.1 hc with h1 | h2
    · rcases List.mem_append.1 h1 with h11 | h12
      · exact queryEscape_ne_hash _ c h11
      · rw [show ("=" : String).data = ['='] from rfl] at h12
        intro hcc
        subst hcc
        simp at h12
    · exact queryEscape_ne_hash _ c h2
  · intro hcc
    rw [hcc] at hc
    exact absurd hc (by decide)

theorem urlParse_base_clean (path : String) :
    '#' ∉ (urlParse path).base.data ∧ '?' ∉ (urlParse path).base.data := by
  unfold urlParse
  constructor
  · intro hm
    have hsub := (splitOnFirst_fst_props '?' (splitOnFirst '#' path.data).1).2 '#' hm
    exact (splitOnFirst_fst_props '#' path.data).1 hsub
  · exact (splitOnFirst_fst_props '?' _).1

/-- Counterexample to claim C6: with target `http://example.com/p?a=1`
and params `b=2`, the built URL is `http://example.com/p?b=2` — the
existing `a=1` is not merged or combined with; the whole query is
discarded. -/
theorem newRequest_query_merge_cex :
    (newRequest "u" "GET" "http://example.com/p?a=1" (some [("b", ["2"])]) none).toOption.map
      (fun r => r.url) = some "http://example.com/p?b=2" := rfl

/-- Claim C6 (amended): when params are present, the built URL keeps the
target's pre-query part and fragment but its query string is exactly the
standard encoding of the params — any query already present in the target
is discarded, not merged; when params are nil, the URL is the target,
unchanged. -/
theorem newRequest_params_replace_query (ua method path : String) (ps : UrlValues)
    (payload : Option GoValue) (req req2 : HttpRequest)
    (hreq : newRequest ua method path (some ps) payload = .ok req)
    (hreq2 : newRequest ua method path none payload = .ok req2) :
    urlParse req.url =
      { base := (urlParse path).base, rawQuery := UrlValues.Encode ps,
        fragment := (urlParse path).fragment } ∧
    req2.url = path := by
  constructor
  · unfold newRequest at hreq
    split at hreq
    · exact absurd hreq (by simp)
    · cases htj : toJson payload with
      | error e => rw [htj] at hreq; exact absurd hreq (by simp)
      | ok body =>
        rw [htj] at hreq
        simp only [Except.ok.injEq] at hreq
        have hurl : req.url = urlString
            { base := (urlParse path).base, rawQuery := UrlValues.Encode ps,
              fragment := (urlParse path).fragment } := by
          rw [← hreq]
        rw [hurl]
        exact urlParse_urlString _ (urlParse_base_clean path).1 (urlParse_base_clean path).2
          (fun hm => (encode_ne_hash ps '#' hm) rfl)
  · unfold newRequest at hreq2
    split at hreq2
    · exact absurd hreq2 (by simp)
    · cases htj : toJson payload with
      | error e => rw [htj] at hreq2; exact absurd hreq2 (by simp)
      | ok body =>
        rw [htj] at hreq2
        simp only [Except.ok.injEq] at hreq2
        rw [← hreq2]

/-- Witness for claim C6 at the concrete target and params of the
counterexample. -/
theorem newRequest_params_replace_query_witness :
    urlParse "http://example.com/p?b=2" =
      { base := "http://example.com/p", rawQuery := "b=2", fragment := "" } ∧
    ("http://example.com/p?a=1" : String) = "http://example.com/p?a=1" :=
  newRequest_params_replace_query "u" "GET" "http://example.com/p?a=1" [("b", ["2"])] none
    { method := "GET", url := "http://example.com/p?b=2",
      headers := [("User-Agent", "u"), ("Accept", "application/json"),
                  ("Content-Type", "application/json")], body := none }
    { method := "GET", url := "http://example.com/p?a=1",
      headers := [("User-Agent", "u"), ("Accept", "application/json"),
                  ("Content-Type", "application/json")], body := none }
    rfl rfl
